import Mathlib

/-
Verification development for the TTSLiveChatRelay repository.

The embedding models the room lifecycle and fan-out core:
  * part_002 (TikTokManager.ts): connect/disconnect concurrency control,
    chat dedup cache (shouldEmitChat, computeChatKey), envelope emission.
  * server.ts: subscriber registries for both transports, broadcastEvent,
    the SSE and WS join/leave handlers, and the lifecycle coupling.

JS Maps are modelled as insertion-ordered association lists with string keys
(set updates in place, otherwise appends; delete removes the entry for a key).
Dynamic payload field values are modelled as optional strings, with JS
truthiness (absent and the empty string are falsy). Times are naturals
(milliseconds since epoch; Date.now is always positive at runtime).
-/

namespace TTSRelay

abbrev Room := String

/-- JS truthiness of an optional string value: undefined and the empty string are falsy. -/
def truthy : Option String → Bool
  | none => false
  | some s => s != ""

/-- JS logical-or on optional string values: the left operand when truthy, else the right. -/
def jsOr (a b : Option String) : Option String :=
  if truthy a then a else b

/-- JS template rendering of an optional value with nullish coalescing to the empty string. -/
def renderOpt : Option String → String
  | none => ""
  | some s => s

/-- Lookup in a JS Map modelled as an insertion-ordered association list. -/
def jmGet {α : Type} (m : List (String × α)) (k : String) : Option α :=
  match m with
  | [] => none
  | (k1, v) :: rest => if k1 = k then some v else jmGet rest k

/-- JS Map.set: update an existing key in place (keeping insertion order), else append. -/
def jmSet {α : Type} (m : List (String × α)) (k : String) (v : α) : List (String × α) :=
  match m with
  | [] => [(k, v)]
  | (k1, v1) :: rest => if k1 = k then (k, v) :: rest else (k1, v1) :: jmSet rest k v

/-- JS Map.delete: remove the entry for a key, if present. -/
def jmDelete {α : Type} (m : List (String × α)) (k : String) : List (String × α) :=
  match m with
  | [] => []
  | (k1, v1) :: rest => if k1 = k then rest else (k1, v1) :: jmDelete rest k

/-- The JS Map invariant: keys of the association list are pairwise distinct. -/
def keysNodup {α : Type} (m : List (String × α)) : Prop :=
  (m.map Prod.fst).Nodup

/-- Shape of a dynamically-typed chat payload as inspected by computeChatKey
(part_002 lines 120-134). Each field models a JS property that may be absent;
dynamic field values are modelled as strings (the code only ever renders them
into strings). userUserId and userUniqueId model the nested user.userId and
user.uniqueId optional-chain accesses. -/
structure ChatPayload where
  msgId : Option String := none
  messageId : Option String := none
  id : Option String := none
  uniqueId : Option String := none
  userId : Option String := none
  userUserId : Option String := none
  userUniqueId : Option String := none
  comment : Option String := none
  text : Option String := none
  content : Option String := none
  createTime : Option String := none
  timestamp : Option String := none
  ts : Option String := none
deriving DecidableEq

/-- The message-identifier chain of computeChatKey (part_002 line 124):
msgId || messageId || id under JS truthiness. -/
def idChain (p : ChatPayload) : Option String :=
  jsOr (jsOr p.msgId p.messageId) p.id

/-- The user-identity chain of computeChatKey (part_002 line 127). -/
def userChain (p : ChatPayload) : Option String :=
  jsOr (jsOr (jsOr p.uniqueId p.userId) p.userUserId) p.userUniqueId

/-- The text chain of computeChatKey (part_002 line 128). -/
def textChain (p : ChatPayload) : Option String :=
  jsOr (jsOr p.comment p.text) p.content

/-- The creation-time chain of computeChatKey (part_002 line 129). -/
def timeChain (p : ChatPayload) : Option String :=
  jsOr (jsOr p.createTime p.timestamp) p.ts

/-- The composite fingerprint string of computeChatKey (part_002 line 130). -/
def approxKey (p : ChatPayload) : String :=
  renderOpt (userChain p) ++ "|" ++ renderOpt (textChain p) ++ "|" ++ renderOpt (timeChain p)

/-- Dedup key derivation (part_002 computeChatKey, lines 120-134): prefer a stable
message identifier (msgId || messageId || id, JS truthiness); else the composite
fingerprint user|text|time, returned only when it differs from the all-absent
rendering of two bars; else null. The function is total by construction, which is
the embedding of the never-throws try/catch around the optional-chain accesses. -/
def computeChatKey (p : ChatPayload) : Option String :=
  if truthy (idChain p) then some (renderOpt (idChain p))
  else if approxKey p != "||" then some (approxKey p) else none

/-- The dedup TTL (part_002 line 143): two minutes in milliseconds. -/
def ttlMs : Nat := 120000

/-- A per-room dedup map from chat key to last-seen timestamp. -/
abbrev KeyMap := List (String × Nat)

/-- One pass of the opportunistic eviction loop in shouldEmitChat (part_002 lines
150-155). JS Map iteration is insertion-ordered, and deleting the entry being
visited does not disturb the iteration of the remaining entries, so the loop is
embedded as a walk over a snapshot of the entry list that threads the live map:
delete each visited entry whose age reached the TTL, and stop as soon as the live
map holds at most 800 entries. -/
def evictScan (now ttl : Nat) : List (String × Nat) → KeyMap → KeyMap
  | [], m => m
  | (k, ts) :: rest, m =>
    let m1 := if ttl ≤ now - ts then jmDelete m k else m
    if m1.length ≤ 800 then m1 else evictScan now ttl rest m1

/-- The per-manager dedup state: room name to per-room key map (part_002 line 19). -/
abbrev RoomKeyMaps := List (Room × KeyMap)

/-- Embeds part_002 line 144: insert an empty map for the room when none exists yet. -/
def ensureRoom (rooms : RoomKeyMaps) (room : Room) : RoomKeyMaps :=
  if (jmGet rooms room).isSome then rooms else jmSet rooms room ([] : KeyMap)

/-- The room's dedup map (part_002 line 145; an absent room reads as empty). -/
def roomMapOf (rooms : RoomKeyMaps) (room : Room) : KeyMap :=
  (jmGet rooms room).getD []

/-- Embeds part_002 lines 148-155: record the key at now, then run the opportunistic
eviction scan when the map has grown beyond 1000 entries. -/
def insertAndEvict (m : KeyMap) (key : String) (now : Nat) : KeyMap :=
  let map1 := jmSet m key now
  if 1000 < map1.length then evictScan now ttlMs map1 map1 else map1

/-- Embeds part_002 shouldEmitChat (lines 141-157): ensure the room's map exists; a key
whose entry is truthy (nonzero, mirroring the JS check of the stored number) and
younger than the TTL is suppressed without any update; otherwise the entry is set
to now and, when the map then exceeds 1000 entries, the eviction scan runs.
Returns whether the event may be emitted, together with the updated state. -/
def shouldEmitChat (rooms : RoomKeyMaps) (room : Room) (key : String) (now : Nat) :
    Bool × RoomKeyMaps :=
  let rooms1 := ensureRoom rooms room
  let map := roomMapOf rooms1 room
  let suppressed := match jmGet map key with
    | some last => last != 0 && decide (now - last < ttlMs)
    | none => false
  if suppressed then (false, rooms1)
  else (true, jmSet rooms1 room (insertAndEvict map key now))

/-- The chat branch of the relay closure (part_002 lines 44-55): derive the key;
when a truthy key is derived, consult the dedup cache and drop the event if it is
suppressed; otherwise emit. Returns whether an envelope is emitted, with the
updated dedup state. -/
def relayChat (rooms : RoomKeyMaps) (room : Room) (p : ChatPayload) (now : Nat) :
    Bool × RoomKeyMaps :=
  match computeChatKey p with
  | some k => if k == "" then (true, rooms) else shouldEmitChat rooms room k now
  | none => (true, rooms)

/-- Payload of an emitted envelope, restricted to the shapes this model needs:
a raw upstream chat payload, a serialized error (name and message), or the
uniqueId record emitted with a disconnected envelope. -/
inductive Payload where
  | chat (p : ChatPayload)
  | errorInfo (name message : String)
  | roomRef (uniqueId : String)
  | plain (tag : String)
deriving DecidableEq

/-- The normalized event envelope (part_002 lines 4-9). -/
structure TikTokEvent where
  type : String
  payload : Payload
  timestamp : Nat
  room : String
deriving DecidableEq

/-- State fields of TikTokManager (part_002 lines 16-19): the active-connection
map (modelled by its key set), the in-flight attempt map (likewise), and the
per-room dedup maps. -/
structure ManagerState where
  connections : List Room
  connectingPromises : List Room
  recentChatKeysByRoom : RoomKeyMaps
deriving DecidableEq

/-- Observable result of one disconnect call. -/
structure DisconnectResult where
  state : ManagerState
  threw : Bool
  emitted : List TikTokEvent
  upstreamInvoked : Bool
deriving DecidableEq

/-- TikTokManager.disconnect (part_002 lines 96-106), parameterized by whether the
upstream client's disconnect call fails. When the room has no active connection it
returns at once. Otherwise the upstream disconnect is invoked and, in the finally
block, the room's record is removed and a disconnected envelope is emitted whether
or not the upstream call failed; a failure then re-throws. -/
def disconnect (st : ManagerState) (uniqueId : Room) (now : Nat) (upstreamFails : Bool) :
    DisconnectResult :=
  if st.connections.contains uniqueId then
    { state := { st with connections := st.connections.erase uniqueId }
      threw := upstreamFails
      emitted := [{ type := "disconnected", payload := .roomRef uniqueId,
                    timestamp := now, room := uniqueId }]
      upstreamInvoked := true }
  else
    { state := st, threw := false, emitted := [], upstreamInvoked := false }

/-- State effect of a successful connect on the connections map (part_002 line 80):
the room's connection handle is recorded; no other manager field is touched. -/
def connectRecord (st : ManagerState) (uniqueId : Room) : ManagerState :=
  { st with connections :=
      if st.connections.contains uniqueId then st.connections else uniqueId :: st.connections }

/-- Outcome of an upstream connect attempt. -/
inductive COutcome where
  | ok
  | fail (e : Nat)
deriving DecidableEq

/-- Role a connect caller takes at its check step (part_002 lines 26-92). -/
inductive CallerRole where
  | immediate
  | waiter
  | owner
deriving DecidableEq

/-- Per-room connection-control state as seen by connect (part_002 lines 25-94),
together with a counter of upstream connect invocations. -/
structure ConnGate where
  connected : Bool
  inflight : Bool
  upstreamCalls : Nat
deriving DecidableEq

/-- The atomic check-and-register step of one connect call (part_002 lines 26-92).
JS runs this whole block without yielding to other callers: the promise executor
and the synchronous head of its async body (through the upstream connect
invocation at line 79) run inside the Promise constructor, and the caller only
suspends at the awaits of lines 32 and 93, both of which come after the maps have
been updated. So concurrent calls interleave only at whole-step granularity:
an already-connected room resolves immediately (line 28); an in-flight room turns
the caller into a waiter on that same attempt (lines 30-34); otherwise the caller
becomes the owner, registering the attempt and invoking the upstream connect. -/
def checkStep (s : ConnGate) : ConnGate × CallerRole :=
  if s.connected then (s, .immediate)
  else if s.inflight then (s, .waiter)
  else ({ s with inflight := true, upstreamCalls := s.upstreamCalls + 1 }, .owner)

/-- Run the check steps of n concurrent callers in arrival order. -/
def runCallers (s : ConnGate) : Nat → ConnGate × List CallerRole
  | 0 => (s, [])
  | n + 1 =>
    let s1 := (checkStep s).1
    let out := runCallers s1 n
    (out.1, (checkStep s).2 :: out.2)

/-- The resolution step of the single attempt (part_002 lines 79-88): on success
the connection is recorded; the in-flight marker is removed either way. -/
def resolveStep (s : ConnGate) (o : COutcome) : ConnGate :=
  { s with inflight := false, connected := s.connected || (o == .ok) }

/-- The result a caller with the given role observes, where o is the one
attempt's outcome: an immediate caller resolves successfully without awaiting
(line 28 returns); the owner and every waiter receive o (lines 32 and 93). -/
def callerResult (o : COutcome) : CallerRole → COutcome
  | .immediate => .ok
  | .waiter => o
  | .owner => o

/-- SSE message as observed by one SSE subscriber: the opening comment write
(server.ts line 102), a broadcast envelope write (lines 40-42), or the direct
connect-failure error write (lines 109-114). -/
inductive SseMsg where
  | comment
  | envelope (e : TikTokEvent)
  | directError
deriving DecidableEq

/-- Whether an SSE message is error-typed on the wire: a broadcast envelope whose
type is the error type, or the direct connect-failure write (which is framed with
the error event name, server.ts line 111). -/
def SseMsg.isError : SseMsg → Bool
  | .envelope e => e.type == "error"
  | .directError => true
  | .comment => false

/-- One registered WS subscriber: socket identity, ready state, whether its send
throws, the events selector its request carried (the server never reads it), and
the messages it received. -/
structure WsClient where
  wid : Nat
  isOpen : Bool
  sendFails : Bool
  events : Option String
  msgs : List TikTokEvent
deriving DecidableEq

/-- One registered SSE subscriber: client id, whether its write throws, the events
selector its request carried (the server never reads it), and the messages it
received. -/
structure SseClient where
  sid : String
  writeFails : Bool
  events : Option String
  msgs : List SseMsg
deriving DecidableEq

/-- The server's shared state (server.ts lines 17-23), with the registries of both
transports keyed by room, the manager's active-connection key set, counters of the
manager calls and upstream invocations, and an observation trace of the WS sends
that succeeded (recording socket id and envelope). -/
structure ServerState where
  wsClientsByRoom : List (Room × List WsClient)
  sseClientsByRoom : List (Room × List SseClient)
  connections : List Room
  connectCalls : Nat
  upstreamConnects : Nat
  disconnectCalls : Nat
  upstreamDisconnects : Nat
  wsLog : List (Nat × TikTokEvent)
deriving DecidableEq

/-- The server's initial state: empty registries, nothing connected (server.ts
lines 17-23, process start). -/
def initialServer : ServerState :=
  { wsClientsByRoom := [], sseClientsByRoom := [], connections := [],
    connectCalls := 0, upstreamConnects := 0, disconnectCalls := 0,
    upstreamDisconnects := 0, wsLog := [] }

/-- Delivery of one envelope to one WS subscriber (server.ts lines 31-35): only
sockets in the OPEN ready state are sent to, and a throwing send is caught and
ignored, leaving the subscriber untouched. -/
def deliverWs (evt : TikTokEvent) (c : WsClient) : WsClient :=
  if c.isOpen && !c.sendFails then { c with msgs := c.msgs ++ [evt] } else c

/-- Delivery of one envelope to one SSE subscriber (server.ts lines 41-43): a
throwing write is caught and ignored, leaving the subscriber untouched. -/
def deliverSse (evt : TikTokEvent) (c : SseClient) : SseClient :=
  if c.writeFails then c else { c with msgs := c.msgs ++ [.envelope evt] }

/-- Embeds server.ts broadcastEvent (lines 26-45): fan the envelope out to the room's WS
set (OPEN sockets only, send failures swallowed) and to the room's SSE clients
(write failures swallowed). No event-type filtering of any kind occurs. The wsLog
trace additionally records each WS send that succeeded. -/
def broadcastEvent (st : ServerState) (evt : TikTokEvent) : ServerState :=
  let wsRooms := match jmGet st.wsClientsByRoom evt.room with
    | some cs => jmSet st.wsClientsByRoom evt.room (cs.map (deliverWs evt))
    | none => st.wsClientsByRoom
  let lg := match jmGet st.wsClientsByRoom evt.room with
    | some cs => st.wsLog ++ (cs.filter (fun c => c.isOpen && !c.sendFails)).map (fun c => (c.wid, evt))
    | none => st.wsLog
  let sseRooms := match jmGet st.sseClientsByRoom evt.room with
    | some cs => jmSet st.sseClientsByRoom evt.room (cs.map (deliverSse evt))
    | none => st.sseClientsByRoom
  { st with wsClientsByRoom := wsRooms, sseClientsByRoom := sseRooms, wsLog := lg }

/-- The manager's event hook (server.ts lines 47-49): every envelope the manager
emits is handed to broadcastEvent, in emission order. -/
def emitAll (st : ServerState) (evts : List TikTokEvent) : ServerState :=
  evts.foldl broadcastEvent st

/-- The manager's connect as triggered by one subscriber join, with the attempt's
outcome passed as a parameter (part_002 lines 25-94 collapsed to the state effect
observed by a caller whose attempt is alone in its check-to-resolution window):
an already-connected room returns at once with no upstream invocation; otherwise
the upstream connect is invoked and, on success, the connection is recorded, while
on failure an error envelope is emitted (part_002 lines 82-85) and connect fails.
Returns the state, whether connect failed, and the envelopes the manager emitted. -/
def managerConnect (st : ServerState) (room : Room) (o : COutcome) (now : Nat) :
    ServerState × Bool × List TikTokEvent :=
  let st0 := { st with connectCalls := st.connectCalls + 1 }
  if st0.connections.contains room then (st0, false, [])
  else
    let st1 := { st0 with upstreamConnects := st0.upstreamConnects + 1 }
    match o with
    | .ok => ({ st1 with connections := room :: st1.connections }, false, [])
    | .fail e =>
      (st1, true,
       [{ type := "error", payload := .errorInfo "Error" (toString e),
          timestamp := now, room := room }])

/-- The manager's disconnect as triggered by a subscriber leave (part_002 lines
96-106, with a successful upstream disconnect): a no-op when the room has no
active connection; otherwise the upstream disconnect is invoked, the record is
removed, and a disconnected envelope is emitted. -/
def managerDisconnect (st : ServerState) (room : Room) (now : Nat) :
    ServerState × List TikTokEvent :=
  let st0 := { st with disconnectCalls := st.disconnectCalls + 1 }
  if st0.connections.contains room then
    ({ st0 with upstreamDisconnects := st0.upstreamDisconnects + 1,
                connections := st0.connections.erase room },
     [{ type := "disconnected", payload := .roomRef room, timestamp := now, room := room }])
  else (st0, [])

/-- JS Map.set on a room's SSE client map keyed by client id (server.ts line 99). -/
def sseSet (cs : List SseClient) (c : SseClient) : List SseClient :=
  match cs with
  | [] => [c]
  | c1 :: rest => if c1.sid = c.sid then c :: rest else c1 :: sseSet rest c

/-- JS Map.delete on a room's SSE client map keyed by client id (server.ts line 124). -/
def sseDelete (cs : List SseClient) (sid0 : String) : List SseClient :=
  match cs with
  | [] => []
  | c1 :: rest => if c1.sid = sid0 then rest else c1 :: sseDelete rest sid0

/-- Set.delete on a room's WS socket set, by socket identity (server.ts line 154). -/
def wsDelete (cs : List WsClient) (wid0 : Nat) : List WsClient :=
  match cs with
  | [] => []
  | c1 :: rest => if c1.wid = wid0 then rest else c1 :: wsDelete rest wid0

/-- Whether the WS registry holds no subscriber for a room (server.ts lines
128-129 and the symmetric check): the room is absent or its set is empty. -/
def wsRoomEmpty (st : ServerState) (room : Room) : Bool :=
  match jmGet st.wsClientsByRoom room with
  | none => true
  | some cs => cs.length == 0

/-- Whether the SSE registry holds no subscriber for a room (server.ts lines
157-158 and the symmetric check). -/
def sseRoomEmpty (st : ServerState) (room : Room) : Bool :=
  match jmGet st.sseClientsByRoom room with
  | none => true
  | some cs => cs.length == 0

/-- A direct write to one SSE client, bypassing broadcast; a throwing write is
caught (server.ts lines 102 and 109-114). -/
def sseWriteDirect (st : ServerState) (room : Room) (clientId : String) (m : SseMsg) :
    ServerState :=
  match jmGet st.sseClientsByRoom room with
  | none => st
  | some cs =>
    let cs1 := cs.map (fun c =>
      if c.sid == clientId && !c.writeFails then { c with msgs := c.msgs ++ [m] } else c)
    { st with sseClientsByRoom := jmSet st.sseClientsByRoom room cs1 }

/-- SSE close handler (server.ts lines 118-134): remove the client from the room's
map; when the room's map becomes empty, drop the room entry and, if the WS
registry also holds no subscriber for the room, trigger the manager's disconnect
(whose emitted envelopes flow through the event hook). -/
def sseLeave (st : ServerState) (room : Room) (clientId : String) (now : Nat) :
    ServerState :=
  match jmGet st.sseClientsByRoom room with
  | none => st
  | some cs =>
    let cs1 := sseDelete cs clientId
    if cs1.length = 0 then
      let st1 := { st with sseClientsByRoom := jmDelete st.sseClientsByRoom room }
      if wsRoomEmpty st1 room then
        let out := managerDisconnect st1 room now
        emitAll out.1 out.2
      else st1
    else { st with sseClientsByRoom := jmSet st.sseClientsByRoom room cs1 }

/-- WS close handler (server.ts lines 153-162): remove the socket from the room's
set; when the set becomes empty, drop the room entry and, if the SSE registry also
holds no subscriber for the room, trigger the manager's disconnect. -/
def wsLeave (st : ServerState) (room : Room) (wid0 : Nat) (now : Nat) : ServerState :=
  match jmGet st.wsClientsByRoom room with
  | none => st
  | some cs =>
    let cs1 := wsDelete cs wid0
    if cs1.length = 0 then
      let st1 := { st with wsClientsByRoom := jmDelete st.wsClientsByRoom room }
      if sseRoomEmpty st1 room then
        let out := managerDisconnect st1 room now
        emitAll out.1 out.2
      else st1
    else { st with wsClientsByRoom := jmSet st.wsClientsByRoom room cs1 }

/-- Registration step of the SSE handler (server.ts lines 98-99): ensure the
room's client map exists and set the client under its id. -/
def sseRegister (st : ServerState) (room : Room) (c : SseClient) : ServerState :=
  let rooms0 := if (jmGet st.sseClientsByRoom room).isSome then st.sseClientsByRoom
                else jmSet st.sseClientsByRoom room []
  { st with sseClientsByRoom := jmSet rooms0 room (sseSet ((jmGet rooms0 room).getD []) c) }

/-- SSE subscription handler (server.ts lines 86-116): register the client, write
the opening comment, then ensure the room's upstream connection; envelopes the
manager emits during the attempt reach the client through the broadcast hook, and
a connect failure is additionally surfaced to this client by one direct
error-framed write. The client is not deregistered on failure. -/
def sseJoin (st : ServerState) (room : Room) (clientId : String)
    (events : Option String) (writeFails : Bool) (o : COutcome) (now : Nat) : ServerState :=
  let st1 := sseRegister st room
    { sid := clientId, writeFails := writeFails, events := events, msgs := [] }
  let st2 := sseWriteDirect st1 room clientId .comment
  let out := managerConnect st2 room o now
  let st4 := emitAll out.1 out.2.2
  if out.2.1 then sseWriteDirect st4 room clientId .directError else st4

/-- Models ws.close as invoked by the server (server.ts line 151): the socket leaves the
OPEN ready state; its close event then fires separately. -/
def closeWs (st : ServerState) (room : Room) (wid0 : Nat) : ServerState :=
  match jmGet st.wsClientsByRoom room with
  | none => st
  | some cs =>
    let cs1 := cs.map (fun c => if c.wid = wid0 then { c with isOpen := false } else c)
    { st with wsClientsByRoom := jmSet st.wsClientsByRoom room cs1 }

/-- Registration step of the WS handler (server.ts lines 145-147): ensure the
room's socket set exists and add the socket (a fresh socket object, so Set.add
appends). -/
def wsRegister (st : ServerState) (room : Room) (c : WsClient) : ServerState :=
  let rooms0 := if (jmGet st.wsClientsByRoom room).isSome then st.wsClientsByRoom
                else jmSet st.wsClientsByRoom room []
  { st with wsClientsByRoom := jmSet rooms0 room ((jmGet rooms0 room).getD [] ++ [c]) }

/-- WS connection handler (server.ts lines 138-152): register the socket, then
ensure the room's upstream connection; on connect failure the socket is closed,
which fires its close handler. -/
def wsJoin (st : ServerState) (room : Room) (wid0 : Nat) (events : Option String)
    (o : COutcome) (now : Nat) : ServerState :=
  let st1 := wsRegister st room
    { wid := wid0, isOpen := true, sendFails := false, events := events, msgs := [] }
  let out := managerConnect st1 room o now
  let st3 := emitAll out.1 out.2.2
  if out.2.1 then wsLeave (closeWs st3 room wid0) room wid0 now else st3

/-- Follows the spec's words, for comparison with broadcastEvent: parse a
comma-separated, case-insensitive, trimmed events selector into the list of
accepted type names; an absent selector, or one that is empty after trimming,
defaults to the chat-only filter. Splitting, trimming and lowercasing are spelled
out over character lists so the parser is kernel-computable. -/
def splitComma : List Char → List Char → List (List Char)
  | [], acc => [acc.reverse]
  | ch :: rest, acc =>
    if ch = ',' then acc.reverse :: splitComma rest [] else splitComma rest (ch :: acc)

/-- Trim spaces from both ends of a character list (spec-side helper). -/
def trimChars (l : List Char) : List Char :=
  ((l.dropWhile (· = ' ')).reverse.dropWhile (· = ' ')).reverse

/-- Follows the spec's words: the parsed event-type filter of a subscriber. -/
def parseEventsSelector (s : Option String) : List String :=
  match s with
  | none => ["chat"]
  | some raw =>
    let items := ((splitComma raw.data []).map
        (fun cs => String.mk (trimChars (cs.map Char.toLower)))).filter (fun t => t != "")
    if items = [] then ["chat"] else items

/-- Follows the spec's words: a filter accepts a type name when it contains that
exact name or the wildcard marker. -/
def filterAccepts (f : List String) (t : String) : Bool :=
  f.contains t || f.contains "*"

/-- A concrete WS subscriber (open socket) with a given id and send behavior. -/
def wsSub (w : Nat) (fails : Bool) : WsClient :=
  { wid := w, isOpen := true, sendFails := fails, events := none, msgs := [] }

/-- A concrete SSE subscriber (working write) with a given id and declared
events selector. -/
def sseSub (cid : String) (es : Option String) : SseClient :=
  { sid := cid, writeFails := false, events := es, msgs := [] }

/-- A concrete chat envelope for room r. -/
def chatEvt : TikTokEvent :=
  { type := "chat", payload := .plain "hello", timestamp := 5, room := "r" }

/-- A server state with three open WS subscribers in room r, the middle one with
a throwing send. -/
def wsIsoState : ServerState :=
  { initialServer with
      wsClientsByRoom := [("r", [wsSub 1 false, wsSub 2 true, wsSub 3 false])] }

/-- A server state with one SSE subscriber in room r that declared the selector
gift. -/
def giftSelState : ServerState :=
  { initialServer with sseClientsByRoom := [("r", [sseSub "c1" (some "gift")])] }

/-- The error envelope the manager emits when a connect attempt for the room
fails (part_002 lines 82-85, with the failure modelled by its numeric id). -/
def errEnvelope (e now : Nat) (room : String) : TikTokEvent :=
  { type := "error", payload := .errorInfo "Error" (toString e), timestamp := now,
    room := room }

/-- A server state whose room r is connected upstream with no subscribers. -/
def connectedState : ServerState :=
  { initialServer with connections := ["r"] }

/-- A server state with one SSE subscriber in connected room r. -/
def oneSseState : ServerState :=
  { initialServer with sseClientsByRoom := [("r", [sseSub "c1" none])], connections := ["r"] }

/-- A server state with one WS subscriber in connected room r. -/
def oneWsState : ServerState :=
  { initialServer with wsClientsByRoom := [("r", [wsSub 1 false])], connections := ["r"] }

/-- A family of pairwise-distinct dedup keys, used to exhibit a concrete dedup
map that crosses the eviction threshold. -/
def strRep (i : Nat) : String :=
  String.mk (List.replicate i 'a')

/-- A concrete 1001-entry dedup map, all entries recorded at clock value 0, used
to exhibit an insertion that pushes a room's map past the eviction threshold. -/
def bigMap : KeyMap :=
  (List.range 1001).map (fun i => (strRep i, 0))

theorem jmGet_jmSet_self {α : Type} (m : List (String × α)) (k : String) (v : α) :
    jmGet (jmSet m k v) k = some v := by
  induction m with
  | nil => simp [jmSet, jmGet]
  | cons hd t ih =>
    obtain ⟨k1, v1⟩ := hd
    by_cases hk : k1 = k
    · simp [jmSet, hk, jmGet]
    · simp [jmSet, hk, jmGet, ih]

theorem jmSet_eq_append {α : Type} (m : List (String × α)) (k : String) (v : α)
    (h : jmGet m k = none) : jmSet m k v = m ++ [(k, v)] := by
  induction m with
  | nil => simp [jmSet]
  | cons hd t ih =>
    obtain ⟨k1, v1⟩ := hd
    by_cases hk : k1 = k
    · simp [jmGet, hk] at h
    · simp [jmGet, hk] at h
      simp [jmSet, hk, ih h]

theorem mem_jmSet_self {α : Type} (m : List (String × α)) (k : String) (v : α) :
    (k, v) ∈ jmSet m k v := by
  induction m with
  | nil => simp [jmSet]
  | cons hd t ih =>
    obtain ⟨k1, v1⟩ := hd
    by_cases hk : k1 = k
    · simp [jmSet, hk]
    · simp only [jmSet, if_neg hk]
      exact List.mem_cons_of_mem _ ih

theorem jmDelete_sublist {α : Type} (m : List (String × α)) (k : String) :
    List.Sublist (jmDelete m k) m := by
  induction m with
  | nil => simp [jmDelete]
  | cons hd t ih =>
    obtain ⟨k1, v1⟩ := hd
    by_cases hk : k1 = k
    · simp [jmDelete, hk]
    · simpa [jmDelete, hk] using List.Sublist.cons₂ (k1, v1) ih

theorem mem_jmDelete_of_ne {α : Type} {m : List (String × α)} {k1 k : String} {v1 : α}
    (h : (k1, v1) ∈ m) (hne : k1 ≠ k) : (k1, v1) ∈ jmDelete m k := by
  induction m with
  | nil => simp at h
  | cons hd t ih =>
    obtain ⟨k2, v2⟩ := hd
    rcases List.mem_cons.mp h with heq | hmem
    · rw [Prod.mk.injEq] at heq
      have hk2 : k2 ≠ k := by
        rw [← heq.1]
        exact hne
      simp only [jmDelete, if_neg hk2]
      rw [heq.1, heq.2]
      exact List.mem_cons_self _ _
    · by_cases hk : k2 = k
      · simpa [jmDelete, hk] using hmem
      · simp only [jmDelete, if_neg hk]
        exact List.mem_cons_of_mem _ (ih hmem)

theorem length_le_jmDelete {α : Type} (m : List (String × α)) (k : String) :
    m.length ≤ (jmDelete m k).length + 1 := by
  induction m with
  | nil => simp [jmDelete]
  | cons hd t ih =>
    obtain ⟨k1, v1⟩ := hd
    by_cases hk : k1 = k
    · simp [jmDelete, hk]
    · simp only [jmDelete, if_neg hk, List.length_cons]
      omega

theorem evictScan_cons (now ttl : Nat) (k : String) (ts : Nat)
    (rest : List (String × Nat)) (m : KeyMap) :
    evictScan now ttl ((k, ts) :: rest) m =
      if (if ttl ≤ now - ts then jmDelete m k else m).length ≤ 800
      then (if ttl ≤ now - ts then jmDelete m k else m)
      else evictScan now ttl rest (if ttl ≤ now - ts then jmDelete m k else m) :=
  rfl

theorem evictScan_sublist (now ttl : Nat) (es : List (String × Nat)) (m : KeyMap) :
    List.Sublist (evictScan now ttl es m) m := by
  induction es generalizing m with
  | nil => simp [evictScan]
  | cons hd rest ih =>
    obtain ⟨k, ts⟩ := hd
    rw [evictScan_cons]
    set mid := if ttl ≤ now - ts then jmDelete m k else m with hmid
    have hsub : List.Sublist mid m := by
      rw [hmid]
      split
      · exact jmDelete_sublist m k
      · exact List.Sublist.refl m
    by_cases h8 : mid.length ≤ 800
    · rw [if_pos h8]
      exact hsub
    · rw [if_neg h8]
      exact List.Sublist.trans (ih mid) hsub

theorem keysNodup_sublist {α : Type} {l m : List (String × α)}
    (h : List.Sublist l m) (hm : keysNodup m) : keysNodup l :=
  List.Nodup.sublist (List.Sublist.map Prod.fst h) hm

theorem mem_keys_jmSet {α : Type} {m : List (String × α)} {x k : String} {v : α}
    (h : x ∈ (jmSet m k v).map Prod.fst) : x ∈ m.map Prod.fst ∨ x = k := by
  induction m with
  | nil => simpa [jmSet] using h
  | cons hd t ih =>
    obtain ⟨k1, v1⟩ := hd
    by_cases hk : k1 = k
    · simp [jmSet, hk] at h
      rcases h with h | h
      · exact Or.inr h
      · exact Or.inl (by simp [h])
    · simp only [jmSet, if_neg hk, List.map_cons, List.mem_cons] at h
      rcases h with h | h
      · exact Or.inl (by simp [h])
      · rcases ih h with h1 | h1
        · exact Or.inl (List.mem_cons_of_mem _ h1)
        · exact Or.inr h1

theorem keysNodup_jmSet {α : Type} {m : List (String × α)} {k : String} {v : α}
    (hm : keysNodup m) : keysNodup (jmSet m k v) := by
  induction m with
  | nil => simp [jmSet, keysNodup]
  | cons hd t ih =>
    obtain ⟨k1, v1⟩ := hd
    rw [keysNodup, List.map_cons, List.nodup_cons] at hm
    by_cases hk : k1 = k
    · subst hk
      simpa [jmSet, keysNodup] using hm
    · have ht := ih hm.2
      rw [keysNodup] at ht ⊢
      simp only [jmSet, if_neg hk, List.map_cons, List.nodup_cons]
      refine ⟨fun hmem => ?_, ht⟩
      rcases mem_keys_jmSet hmem with h1 | h1
      · exact hm.1 h1
      · exact hk h1

theorem jmGet_eq_some_of_mem {α : Type} {m : List (String × α)} {k : String} {v : α}
    (hm : keysNodup m) (h : (k, v) ∈ m) : jmGet m k = some v := by
  induction m with
  | nil => simp at h
  | cons hd t ih =>
    obtain ⟨k1, v1⟩ := hd
    rw [keysNodup, List.map_cons, List.nodup_cons] at hm
    rcases List.mem_cons.mp h with heq | hmem
    · rw [Prod.mk.injEq] at heq
      rw [← heq.1, ← heq.2]
      simp [jmGet]
    · have hne : k1 ≠ k := by
        intro hkk
        have h2 : (k, v).1 ∈ t.map Prod.fst := List.mem_map_of_mem Prod.fst hmem
        apply hm.1
        rw [hkk]
        exact h2
      simp only [jmGet, if_neg hne]
      exact ih hm.2 hmem

theorem val_eq_of_keysNodup {α : Type} {m : List (String × α)} {k : String} {v1 v2 : α}
    (hm : keysNodup m) (h1 : (k, v1) ∈ m) (h2 : (k, v2) ∈ m) : v1 = v2 := by
  have e1 := jmGet_eq_some_of_mem hm h1
  have e2 := jmGet_eq_some_of_mem hm h2
  rw [e1] at e2
  exact Option.some.inj e2

theorem evictScan_young_mem {now ttl : Nat} {k : String} {v : Nat}
    (es : List (String × Nat)) (m : KeyMap)
    (hkv : (k, v) ∈ m) (hyoung : now - v < ttl)
    (hes : ∀ p ∈ es, p.1 = k → p.2 = v) :
    (k, v) ∈ evictScan now ttl es m := by
  induction es generalizing m with
  | nil => simpa [evictScan] using hkv
  | cons hd rest ih =>
    obtain ⟨k1, ts⟩ := hd
    rw [evictScan_cons]
    set mid := if ttl ≤ now - ts then jmDelete m k1 else m with hmid
    have hmem1 : (k, v) ∈ mid := by
      rw [hmid]
      split
      · rename_i hage
        have hne : k ≠ k1 := by
          rintro rfl
          have hts : ts = v := hes (k, ts) (List.mem_cons_self _ _) rfl
          omega
        exact mem_jmDelete_of_ne hkv hne
      · exact hkv
    by_cases h8 : mid.length ≤ 800
    · rw [if_pos h8]
      exact hmem1
    · rw [if_neg h8]
      exact ih mid hmem1 (fun p hp => hes p (List.mem_cons_of_mem _ hp))

theorem evictScan_length_ge {now ttl : Nat} (es : List (String × Nat)) (m : KeyMap)
    (h : 801 ≤ m.length) : 800 ≤ (evictScan now ttl es m).length := by
  induction es generalizing m with
  | nil =>
    simp only [evictScan]
    omega
  | cons hd rest ih =>
    obtain ⟨k, ts⟩ := hd
    rw [evictScan_cons]
    set mid := if ttl ≤ now - ts then jmDelete m k else m with hmid
    have hlen : m.length ≤ mid.length + 1 := by
      rw [hmid]
      split
      · exact length_le_jmDelete m k
      · omega
    by_cases h8 : mid.length ≤ 800
    · rw [if_pos h8]
      omega
    · rw [if_neg h8]
      exact ih mid (by omega)

theorem roomMapOf_ensureRoom (rooms : RoomKeyMaps) (room : Room) :
    roomMapOf (ensureRoom rooms room) room = roomMapOf rooms room := by
  unfold ensureRoom roomMapOf
  split
  · rfl
  · rename_i hnone
    rw [Option.not_isSome_iff_eq_none] at hnone
    rw [hnone, jmGet_jmSet_self]
    rfl

theorem shouldEmit_suppressed {rooms : RoomKeyMaps} {room : Room} {key : String}
    {now : Nat} {m : KeyMap} {l : Nat}
    (hm : jmGet rooms room = some m) (hl : jmGet m key = some l)
    (hl0 : l ≠ 0) (hlt : now - l < ttlMs) :
    shouldEmitChat rooms room key now = (false, rooms) := by
  have hens : ensureRoom rooms room = rooms := by
    simp [ensureRoom, hm]
  have hmap : roomMapOf rooms room = m := by simp [roomMapOf, hm]
  simp only [shouldEmitChat, hens, hmap, hl]
  simp [hl0, hlt]

theorem shouldEmit_record {rooms : RoomKeyMaps} {room : Room} {key : String} {now : Nat}
    (hns : ∀ l, jmGet (roomMapOf rooms room) key = some l → l = 0 ∨ ttlMs ≤ now - l) :
    shouldEmitChat rooms room key now
      = (true, jmSet (ensureRoom rooms room) room
          (insertAndEvict (roomMapOf rooms room) key now)) := by
  simp only [shouldEmitChat, roomMapOf_ensureRoom]
  cases hkey : jmGet (roomMapOf rooms room) key with
  | none => simp [hkey]
  | some l =>
    rcases hns l hkey with h0 | hge
    · subst h0
      simp [hkey]
    · simp [hkey, Nat.not_lt.mpr hge]

theorem insertAndEvict_get {m : KeyMap} (key : String) (now : Nat)
    (hnodup : keysNodup m) :
    jmGet (insertAndEvict m key now) key = some now ∧
      keysNodup (insertAndEvict m key now) := by
  have hmem : (key, now) ∈ jmSet m key now := mem_jmSet_self m key now
  have hnd1 : keysNodup (jmSet m key now) := keysNodup_jmSet hnodup
  simp only [insertAndEvict]
  by_cases hgt : 1000 < (jmSet m key now).length
  · rw [if_pos hgt]
    have hes : ∀ p ∈ jmSet m key now, p.1 = key → p.2 = now := by
      intro p hp hp1
      have hp' : (key, p.2) ∈ jmSet m key now := by
        have hpe : p = (p.1, p.2) := rfl
        rw [hpe, hp1] at hp
        exact hp
      exact val_eq_of_keysNodup hnd1 hp' hmem
    have hyoung : now - now < ttlMs := by simp [ttlMs]
    have hmem2 := evictScan_young_mem (jmSet m key now) (jmSet m key now) hmem hyoung hes
    have hnd2 := keysNodup_sublist
      (evictScan_sublist now ttlMs (jmSet m key now) (jmSet m key now)) hnd1
    exact ⟨jmGet_eq_some_of_mem hnd2 hmem2, hnd2⟩
  · rw [if_neg hgt]
    exact ⟨jmGet_eq_some_of_mem hnd1 hmem, hnd1⟩

theorem roomMapOf_jmSet_self (rooms : RoomKeyMaps) (room : Room) (v : KeyMap) :
    roomMapOf (jmSet rooms room v) room = v := by
  unfold roomMapOf
  rw [jmGet_jmSet_self]
  rfl

/-- Claim C4: for every room and dedup key, if an entry for the key exists (with
the positive timestamp every Date.now reading has) and now - lastSeenAt <
120000 ms, shouldEmit returns false and leaves the state unchanged; otherwise it
sets lastSeenAt = now and returns true; consequently two chat events with the
same key 119 seconds apart yield one emission, while the same pair 121 seconds
apart yields two. -/
theorem dedup_window_rule :
    (∀ (rooms : RoomKeyMaps) (room key : String) (now : Nat) (m : KeyMap) (l : Nat),
      jmGet rooms room = some m → jmGet m key = some l → 0 < l → now - l < ttlMs →
        shouldEmitChat rooms room key now = (false, rooms)) ∧
    (∀ (rooms : RoomKeyMaps) (room key : String) (now : Nat),
      keysNodup (roomMapOf rooms room) →
      (∀ l, jmGet (roomMapOf rooms room) key = some l → l = 0 ∨ ttlMs ≤ now - l) →
        (shouldEmitChat rooms room key now).1 = true ∧
        jmGet (roomMapOf (shouldEmitChat rooms room key now).2 room) key = some now) ∧
    (∀ (rooms : RoomKeyMaps) (room key : String) (t0 : Nat),
      keysNodup (roomMapOf rooms room) →
      jmGet (roomMapOf rooms room) key = none → 0 < t0 →
        (shouldEmitChat rooms room key t0).1 = true ∧
        (shouldEmitChat (shouldEmitChat rooms room key t0).2 room key (t0 + 119000)).1 = false ∧
        (shouldEmitChat (shouldEmitChat rooms room key t0).2 room key (t0 + 121000)).1 = true) := by
  refine ⟨?_, ?_, ?_⟩
  · intro rooms room key now m l hm hl hl0 hlt
    exact shouldEmit_suppressed hm hl (Nat.pos_iff_ne_zero.mp hl0) hlt
  · intro rooms room key now hnd hns
    rw [shouldEmit_record hns]
    refine ⟨rfl, ?_⟩
    rw [roomMapOf_jmSet_self]
    exact (insertAndEvict_get key now hnd).1
  · intro rooms room key t0 hnd hget h0
    have hns : ∀ l, jmGet (roomMapOf rooms room) key = some l → l = 0 ∨ ttlMs ≤ t0 - l := by
      intro l h
      rw [hget] at h
      exact absurd h (by simp)
    rw [shouldEmit_record hns]
    have hmap2 : roomMapOf (jmSet (ensureRoom rooms room) room
        (insertAndEvict (roomMapOf rooms room) key t0)) room
        = insertAndEvict (roomMapOf rooms room) key t0 :=
      roomMapOf_jmSet_self _ _ _
    have hget2 : jmGet (jmSet (ensureRoom rooms room) room
        (insertAndEvict (roomMapOf rooms room) key t0)) room
        = some (insertAndEvict (roomMapOf rooms room) key t0) :=
      jmGet_jmSet_self _ _ _
    have hkey2 : jmGet (insertAndEvict (roomMapOf rooms room) key t0) key = some t0 :=
      (insertAndEvict_get key t0 hnd).1
    have hnd2 : keysNodup (insertAndEvict (roomMapOf rooms room) key t0) :=
      (insertAndEvict_get key t0 hnd).2
    refine ⟨rfl, ?_, ?_⟩
    · have h119 : (t0 + 119000) - t0 < ttlMs := by
        simp only [ttlMs]
        omega
      have hsup := shouldEmit_suppressed hget2 hkey2 (Nat.pos_iff_ne_zero.mp h0) h119
      rw [hsup]
    · have hns2 : ∀ l, jmGet (roomMapOf (jmSet (ensureRoom rooms room) room
          (insertAndEvict (roomMapOf rooms room) key t0)) room) key = some l →
          l = 0 ∨ ttlMs ≤ (t0 + 121000) - l := by
        intro l h
        rw [hmap2, hkey2] at h
        have hl : l = t0 := (Option.some.inj h).symm
        subst hl
        right
        show ttlMs ≤ (l + 121000) - l
        simp [ttlMs]
      rw [shouldEmit_record hns2]

theorem dedup_window_rule_witness :
    shouldEmitChat [("r", [("k", 10)])] "r" "k" 20 = (false, [("r", [("k", 10)])]) ∧
    ((shouldEmitChat ([] : RoomKeyMaps) "r" "k" 7).1 = true ∧
      jmGet (roomMapOf (shouldEmitChat ([] : RoomKeyMaps) "r" "k" 7).2 "r") "k" = some 7) ∧
    ((shouldEmitChat ([] : RoomKeyMaps) "r" "k" 5).1 = true ∧
      (shouldEmitChat (shouldEmitChat ([] : RoomKeyMaps) "r" "k" 5).2 "r" "k" (5 + 119000)).1
        = false ∧
      (shouldEmitChat (shouldEmitChat ([] : RoomKeyMaps) "r" "k" 5).2 "r" "k" (5 + 121000)).1
        = true) := by
  refine ⟨?_, ?_, ?_⟩
  · exact dedup_window_rule.1 [("r", [("k", 10)])] "r" "k" 20 [("k", 10)] 10
      (by decide) (by decide) (by decide) (by decide)
  · refine dedup_window_rule.2.1 ([] : RoomKeyMaps) "r" "k" 7
      (by simp [keysNodup, roomMapOf, jmGet]) ?_
    intro l h
    simp [roomMapOf, jmGet] at h
  · exact dedup_window_rule.2.2 ([] : RoomKeyMaps) "r" "k" 5
      (by simp [keysNodup, roomMapOf, jmGet]) (by decide) (by decide)

/-- Claim C8: whenever an un-suppressed shouldEmit call leaves a room's dedup map
with more than 1000 entries, the map is scanned with entries of age at least the
TTL removed, stopping when the size drops to 800 or the scan completes (the
final size never drops below 800); entries younger than the TTL are never
evicted; with at most 1000 entries no scan runs. -/
theorem dedup_eviction :
    ∀ (rooms : RoomKeyMaps) (room key : String) (now : Nat),
      keysNodup (roomMapOf rooms room) →
      (∀ l, jmGet (roomMapOf rooms room) key = some l → l = 0 ∨ ttlMs ≤ now - l) →
      (shouldEmitChat rooms room key now).1 = true ∧
      (1000 < (jmSet (roomMapOf rooms room) key now).length →
        jmGet (shouldEmitChat rooms room key now).2 room
          = some (evictScan now ttlMs (jmSet (roomMapOf rooms room) key now)
                    (jmSet (roomMapOf rooms room) key now)) ∧
        (∀ p : String × Nat, p ∈ jmSet (roomMapOf rooms room) key now →
          now - p.2 < ttlMs →
          p ∈ evictScan now ttlMs (jmSet (roomMapOf rooms room) key now)
                (jmSet (roomMapOf rooms room) key now)) ∧
        (∀ p : String × Nat, p ∈ jmSet (roomMapOf rooms room) key now →
          p ∉ evictScan now ttlMs (jmSet (roomMapOf rooms room) key now)
                (jmSet (roomMapOf rooms room) key now) →
          ttlMs ≤ now - p.2) ∧
        800 ≤ (evictScan now ttlMs (jmSet (roomMapOf rooms room) key now)
                 (jmSet (roomMapOf rooms room) key now)).length) ∧
      ((jmSet (roomMapOf rooms room) key now).length ≤ 1000 →
        jmGet (shouldEmitChat rooms room key now).2 room
          = some (jmSet (roomMapOf rooms room) key now)) := by
  intro rooms room key now hnd hns
  rw [shouldEmit_record hns]
  have hnd1 : keysNodup (jmSet (roomMapOf rooms room) key now) := keysNodup_jmSet hnd
  refine ⟨rfl, ?_, ?_⟩
  · intro hgt
    have hie : insertAndEvict (roomMapOf rooms room) key now
        = evictScan now ttlMs (jmSet (roomMapOf rooms room) key now)
            (jmSet (roomMapOf rooms room) key now) := by
      simp only [insertAndEvict]
      rw [if_pos hgt]
    have hyoung : ∀ p : String × Nat, p ∈ jmSet (roomMapOf rooms room) key now →
        now - p.2 < ttlMs →
        p ∈ evictScan now ttlMs (jmSet (roomMapOf rooms room) key now)
              (jmSet (roomMapOf rooms room) key now) := by
      intro p hp hage
      obtain ⟨pk, pv⟩ := p
      have hes : ∀ q ∈ jmSet (roomMapOf rooms room) key now, q.1 = pk → q.2 = pv := by
        intro q hq hq1
        have hq' : (pk, q.2) ∈ jmSet (roomMapOf rooms room) key now := by
          have hqe : q = (q.1, q.2) := rfl
          rw [hqe, hq1] at hq
          exact hq
        exact val_eq_of_keysNodup hnd1 hq' hp
      exact evictScan_young_mem _ _ hp hage hes
    refine ⟨?_, hyoung, ?_, ?_⟩
    · rw [jmGet_jmSet_self, hie]
    · intro p hp hout
      by_contra hlt
      exact hout (hyoung p hp (by omega))
    · exact evictScan_length_ge _ _ (by omega)
  · intro hle
    have hie : insertAndEvict (roomMapOf rooms room) key now
        = jmSet (roomMapOf rooms room) key now := by
      simp only [insertAndEvict]
      rw [if_neg (by omega)]
    rw [jmGet_jmSet_self, hie]

theorem strRep_length (i : Nat) : (strRep i).length = i := by
  simp [strRep, String.length]

theorem strRep_inj {i j : Nat} (h : strRep i = strRep j) : i = j := by
  have hl := congrArg String.length h
  rwa [strRep_length, strRep_length] at hl

theorem bigMap_nodup : keysNodup bigMap := by
  rw [keysNodup, bigMap, List.map_map]
  have hcomp : (Prod.fst ∘ fun i => (strRep i, (0 : Nat))) = strRep := rfl
  rw [hcomp]
  exact List.Nodup.map (fun a b hab => strRep_inj hab) (List.nodup_range 1001)

theorem jmGet_strRep_map_none (l : List Nat) :
    jmGet (l.map (fun i => (strRep i, (0 : Nat)))) "zz" = none := by
  induction l with
  | nil => rfl
  | cons a t ih =>
    have hne : strRep a ≠ "zz" := by
      intro h
      have hl := congrArg String.length h
      rw [strRep_length] at hl
      have h2 : a = 2 := by simpa using hl
      subst h2
      exact absurd h (by decide)
    simp only [List.map_cons, jmGet, if_neg hne]
    exact ih

theorem bigMap_get_none : jmGet bigMap "zz" = none := by
  rw [bigMap]
  exact jmGet_strRep_map_none (List.range 1001)

theorem bigMap_length : bigMap.length = 1001 := by
  simp [bigMap]

theorem str_len_zero {s : String} (h : s.length = 0) : s = "" := by
  cases s with
  | mk data =>
    cases data with
    | nil => rfl
    | cons a t => simp [String.length] at h

/-- Claim C9: dedup key derivation is total (a total Lean function by
construction, embedding the never-throwing optional-chain accesses) and follows
the fallback chain: the message identifier if truthy; else the composite
user-text-time fingerprint when it differs from the all-absent rendering, which
happens exactly when at least one of the three components renders nonempty; else
no key, in which case the relay's chat branch bypasses dedup entirely and always
emits, leaving the dedup state untouched. -/
theorem chat_key_fallback_chain :
    ∀ (p : ChatPayload) (rooms : RoomKeyMaps) (room : Room) (now : Nat),
      (truthy (idChain p) = true → computeChatKey p = some (renderOpt (idChain p))) ∧
      (truthy (idChain p) = false → approxKey p ≠ "||" →
        computeChatKey p = some (approxKey p)) ∧
      (approxKey p = "||" ↔
        renderOpt (userChain p) = "" ∧ renderOpt (textChain p) = "" ∧
          renderOpt (timeChain p) = "") ∧
      (truthy (idChain p) = false → approxKey p = "||" →
        computeChatKey p = none ∧ relayChat rooms room p now = (true, rooms)) := by
  intro p rooms room now
  refine ⟨?_, ?_, ?_, ?_⟩
  · intro h
    simp [computeChatKey, h]
  · intro h hne
    simp [computeChatKey, h, hne]
  · constructor
    · intro h
      unfold approxKey at h
      have hlen := congrArg String.length h
      simp only [String.length_append] at hlen
      have hb : ("|" : String).length = 1 := by decide
      have hbb : ("||" : String).length = 2 := by decide
      rw [hb, hbb] at hlen
      refine ⟨str_len_zero (by omega), str_len_zero (by omega), str_len_zero (by omega)⟩
    · rintro ⟨h1, h2, h3⟩
      unfold approxKey
      rw [h1, h2, h3]
      decide
  · intro h hbb
    have hkey : computeChatKey p = none := by
      simp [computeChatKey, h, hbb]
    refine ⟨hkey, ?_⟩
    unfold relayChat
    rw [hkey]

theorem chat_key_fallback_chain_witness :
    computeChatKey { msgId := some "m1" } = some (renderOpt (idChain { msgId := some "m1" })) ∧
    computeChatKey { uniqueId := some "u", text := some "hi" }
      = some (approxKey { uniqueId := some "u", text := some "hi" }) ∧
    (computeChatKey ({} : ChatPayload) = none ∧
      relayChat ([] : RoomKeyMaps) "r" ({} : ChatPayload) 3 = (true, [])) := by
  refine ⟨?_, ?_, ?_⟩
  · exact (chat_key_fallback_chain { msgId := some "m1" } [] "r" 3).1 (by decide)
  · exact (chat_key_fallback_chain { uniqueId := some "u", text := some "hi" } [] "r" 3).2.1
      (by decide) (by decide)
  · exact (chat_key_fallback_chain {} [] "r" 3).2.2.2 (by decide) (by decide)

theorem runCallers_waiting (s : ConnGate) (h1 : s.connected = false)
    (h2 : s.inflight = true) :
    ∀ m, runCallers s m = (s, List.replicate m CallerRole.waiter) := by
  intro m
  induction m with
  | zero => rfl
  | succ k ih =>
    have hstep : checkStep s = (s, .waiter) := by
      simp [checkStep, h1, h2]
    simp [runCallers, hstep, ih, List.replicate_succ]

/-- Claim C1: per room, connect is at-most-once with respect to the upstream
client. On an already-connected room the check step resolves immediately with
success and without touching the gate (no upstream invocation); on a room with
an in-flight attempt the caller becomes a waiter on that same attempt, again
without an upstream invocation; and when n >= 2 concurrent callers hit a
not-yet-connected, not-in-flight room (all check steps before the attempt
resolves), exactly one upstream connect is invoked — the first caller owns the
attempt and every other caller waits — and all n callers observe the one
attempt's outcome. -/
theorem connect_single_flight :
    ∀ (s : ConnGate) (n : Nat) (o : COutcome),
      (s.connected = true →
        checkStep s = (s, .immediate) ∧ callerResult o .immediate = .ok) ∧
      (s.connected = false → s.inflight = true →
        checkStep s = (s, .waiter) ∧ callerResult o .waiter = o) ∧
      (s.connected = false → s.inflight = false → 2 ≤ n →
        (runCallers s n).1.upstreamCalls = s.upstreamCalls + 1 ∧
        (runCallers s n).2 = .owner :: List.replicate (n - 1) CallerRole.waiter ∧
        ∀ r ∈ (runCallers s n).2, callerResult o r = o) := by
  intro s n o
  refine ⟨?_, ?_, ?_⟩
  · intro h
    exact ⟨by simp [checkStep, h], rfl⟩
  · intro h1 h2
    exact ⟨by simp [checkStep, h1, h2], rfl⟩
  · intro h1 h2 hn
    cases n with
    | zero => omega
    | succ k =>
      have hstep : checkStep s
          = ({ s with inflight := true, upstreamCalls := s.upstreamCalls + 1 }, .owner) := by
        simp [checkStep, h1, h2]
      have hrun := runCallers_waiting
        { s with inflight := true, upstreamCalls := s.upstreamCalls + 1 } h1 rfl k
      refine ⟨?_, ?_, ?_⟩
      · simp [runCallers, hstep, hrun]
      · simp [runCallers, hstep, hrun]
      · intro r hr
        simp only [runCallers, hstep, hrun] at hr
        simp only [List.mem_cons] at hr
        rcases hr with hr | hr
        · rw [hr]
          rfl
        · rw [List.eq_of_mem_replicate hr]
          rfl

theorem connect_single_flight_witness :
    (checkStep ⟨true, false, 4⟩ = (⟨true, false, 4⟩, .immediate) ∧
      callerResult (.fail 7) .immediate = .ok) ∧
    (checkStep ⟨false, true, 4⟩ = (⟨false, true, 4⟩, .waiter) ∧
      callerResult (.fail 7) .waiter = .fail 7) ∧
    (runCallers ⟨false, false, 0⟩ 3).1.upstreamCalls = 0 + 1 ∧
    (runCallers ⟨false, false, 0⟩ 3).2
      = .owner :: List.replicate 2 CallerRole.waiter ∧
    ∀ r ∈ (runCallers ⟨false, false, 0⟩ 3).2, callerResult (.fail 7) r = .fail 7 := by
  refine ⟨(connect_single_flight ⟨true, false, 4⟩ 3 (.fail 7)).1 rfl,
          (connect_single_flight ⟨false, true, 4⟩ 3 (.fail 7)).2.1 rfl rfl, ?_, ?_, ?_⟩
  · exact ((connect_single_flight ⟨false, false, 0⟩ 3 (.fail 7)).2.2 rfl rfl (by decide)).1
  · exact ((connect_single_flight ⟨false, false, 0⟩ 3 (.fail 7)).2.2 rfl rfl (by decide)).2.1
  · exact ((connect_single_flight ⟨false, false, 0⟩ 3 (.fail 7)).2.2 rfl rfl (by decide)).2.2

/-- Claim C6: disconnect on a room with no active connection is a no-op that does
not throw and does not invoke the upstream client; on a room with an active
connection it invokes the upstream disconnect and then, whether or not that call
fails, removes the room's active-connection record and emits a disconnected
envelope, re-throwing exactly when the upstream call failed — no stale active
record remains either way. -/
theorem disconnect_cleanup :
    ∀ (st : ManagerState) (u : Room) (now : Nat) (upstreamFails : Bool),
      (st.connections.contains u = false →
        disconnect st u now upstreamFails
          = { state := st, threw := false, emitted := [], upstreamInvoked := false }) ∧
      (st.connections.contains u = true → st.connections.Nodup →
        (disconnect st u now upstreamFails).upstreamInvoked = true ∧
        u ∉ (disconnect st u now upstreamFails).state.connections ∧
        (disconnect st u now upstreamFails).emitted
          = [{ type := "disconnected", payload := .roomRef u,
               timestamp := now, room := u }] ∧
        (disconnect st u now upstreamFails).threw = upstreamFails) := by
  intro st u now f
  constructor
  · intro h
    unfold disconnect
    rw [if_neg (by rw [h]; simp)]
  · intro h hnd
    unfold disconnect
    rw [if_pos h]
    exact ⟨rfl, hnd.not_mem_erase, rfl, rfl⟩

theorem disconnect_cleanup_witness :
    disconnect ⟨[], [], []⟩ "r" 3 false
      = { state := ⟨[], [], []⟩, threw := false, emitted := [], upstreamInvoked := false } ∧
    ((disconnect ⟨["r"], [], []⟩ "r" 3 true).upstreamInvoked = true ∧
      "r" ∉ (disconnect ⟨["r"], [], []⟩ "r" 3 true).state.connections ∧
      (disconnect ⟨["r"], [], []⟩ "r" 3 true).emitted
        = [{ type := "disconnected", payload := .roomRef "r", timestamp := 3, room := "r" }] ∧
      (disconnect ⟨["r"], [], []⟩ "r" 3 true).threw = true) := by
  constructor
  · exact (disconnect_cleanup ⟨[], [], []⟩ "r" 3 false).1 (by decide)
  · exact (disconnect_cleanup ⟨["r"], [], []⟩ "r" 3 true).2 (by decide) (by simp)

/-- Claim C10: disconnect mutates only the connections map, leaving the per-room
dedup state unchanged, so a chat key recorded less than 120000 ms before still
suppresses an equal-keyed chat event arriving after the room has been
disconnected and reconnected: the dedup window survives the connection
lifecycle. -/
theorem dedup_survives_disconnect :
    (∀ (st : ManagerState) (u : Room) (now : Nat) (f : Bool),
      (disconnect st u now f).state.recentChatKeysByRoom = st.recentChatKeysByRoom ∧
      (disconnect st u now f).state.connectingPromises = st.connectingPromises ∧
      (connectRecord (disconnect st u now f).state u).recentChatKeysByRoom
        = st.recentChatKeysByRoom) ∧
    (∀ (rooms : RoomKeyMaps) (room key : String) (t0 t1 : Nat)
        (conns cp : List Room) (now1 : Nat) (f : Bool),
      keysNodup (roomMapOf rooms room) →
      jmGet (roomMapOf rooms room) key = none →
      0 < t0 → t1 - t0 < ttlMs →
      (shouldEmitChat rooms room key t0).1 = true ∧
      (shouldEmitChat
        (connectRecord
          (disconnect ⟨conns, cp, (shouldEmitChat rooms room key t0).2⟩ room now1 f).state
          room).recentChatKeysByRoom
        room key t1).1 = false) := by
  constructor
  · intro st u now f
    refine ⟨?_, ?_, ?_⟩
    · unfold disconnect
      split <;> rfl
    · unfold disconnect
      split <;> rfl
    · unfold disconnect connectRecord
      split <;> rfl
  · intro rooms room key t0 t1 conns cp now1 f hnd hget h0 hwin
    have hns : ∀ l, jmGet (roomMapOf rooms room) key = some l → l = 0 ∨ ttlMs ≤ t0 - l := by
      intro l h
      rw [hget] at h
      exact absurd h (by simp)
    have hrec : (connectRecord
        (disconnect ⟨conns, cp, (shouldEmitChat rooms room key t0).2⟩ room now1 f).state
        room).recentChatKeysByRoom = (shouldEmitChat rooms room key t0).2 := by
      unfold disconnect connectRecord
      split <;> rfl
    rw [shouldEmit_record hns] at hrec ⊢
    refine ⟨rfl, ?_⟩
    rw [hrec]
    have hget2 : jmGet (jmSet (ensureRoom rooms room) room
        (insertAndEvict (roomMapOf rooms room) key t0)) room
        = some (insertAndEvict (roomMapOf rooms room) key t0) :=
      jmGet_jmSet_self _ _ _
    have hkey2 : jmGet (insertAndEvict (roomMapOf rooms room) key t0) key = some t0 :=
      (insertAndEvict_get key t0 hnd).1
    have hsup := shouldEmit_suppressed hget2 hkey2 (Nat.pos_iff_ne_zero.mp h0) hwin
    rw [hsup]

theorem dedup_survives_disconnect_witness :
    (shouldEmitChat ([] : RoomKeyMaps) "r" "k" 5).1 = true ∧
    (shouldEmitChat
      (connectRecord
        (disconnect ⟨["r"], [], (shouldEmitChat ([] : RoomKeyMaps) "r" "k" 5).2⟩ "r" 50
          false).state
        "r").recentChatKeysByRoom
      "r" "k" 100).1 = false := by
  exact dedup_survives_disconnect.2 [] "r" "k" 5 100 ["r"] [] 50 false
    (by simp [keysNodup, roomMapOf, jmGet]) (by decide) (by decide) (by decide)

theorem dedup_eviction_witness :
    (shouldEmitChat [("room", bigMap)] "room" "zz" 5).1 = true ∧
    800 ≤ (evictScan 5 ttlMs (jmSet bigMap "zz" 5) (jmSet bigMap "zz" 5)).length := by
  have hroom : roomMapOf [("room", bigMap)] "room" = bigMap := by
    simp [roomMapOf, jmGet]
  have hnd : keysNodup (roomMapOf [("room", bigMap)] "room") := by
    rw [hroom]
    exact bigMap_nodup
  have hns : ∀ l, jmGet (roomMapOf [("room", bigMap)] "room") "zz" = some l →
      l = 0 ∨ ttlMs ≤ 5 - l := by
    intro l h
    rw [hroom, bigMap_get_none] at h
    exact absurd h (by simp)
  have hgt : 1000 < (jmSet (roomMapOf [("room", bigMap)] "room") "zz" 5).length := by
    rw [hroom, jmSet_eq_append bigMap "zz" 5 bigMap_get_none]
    simp [bigMap_length]
  have main := dedup_eviction [("room", bigMap)] "room" "zz" 5 hnd hns
  have h2 := main.2.1 hgt
  rw [hroom] at h2
  exact ⟨main.1, h2.2.2.2⟩

theorem broadcastEvent_sse_some {st : ServerState} {evt : TikTokEvent}
    {cs : List SseClient} (h : jmGet st.sseClientsByRoom evt.room = some cs) :
    jmGet (broadcastEvent st evt).sseClientsByRoom evt.room
      = some (cs.map (deliverSse evt)) := by
  unfold broadcastEvent
  simp only [h]
  rw [jmGet_jmSet_self]

theorem broadcastEvent_ws_some {st : ServerState} {evt : TikTokEvent}
    {cs : List WsClient} (h : jmGet st.wsClientsByRoom evt.room = some cs) :
    jmGet (broadcastEvent st evt).wsClientsByRoom evt.room
      = some (cs.map (deliverWs evt)) := by
  unfold broadcastEvent
  simp only [h]
  rw [jmGet_jmSet_self]

theorem broadcastEvent_wsLog_some {st : ServerState} {evt : TikTokEvent}
    {cs : List WsClient} (h : jmGet st.wsClientsByRoom evt.room = some cs) :
    (broadcastEvent st evt).wsLog
      = st.wsLog ++ (cs.filter (fun c => c.isOpen && !c.sendFails)).map
          (fun c => (c.wid, evt)) := by
  unfold broadcastEvent
  simp only [h]

theorem broadcastEvent_wsLog_none {st : ServerState} {evt : TikTokEvent}
    (h : jmGet st.wsClientsByRoom evt.room = none) :
    (broadcastEvent st evt).wsLog = st.wsLog := by
  unfold broadcastEvent
  simp only [h]

/-- Claim C7: for every broadcast of one envelope to a room's subscribers, a
delivery failure (throwing send or write) for any one subscriber is caught and
ignored — the failing subscriber simply stays registered with unchanged
messages — and every other open, non-failing subscriber of that room still
receives the event, on both transports. -/
theorem fanout_isolation :
    ∀ (st : ServerState) (evt : TikTokEvent)
      (cs1 cs2 : List WsClient) (f : WsClient)
      (ds1 ds2 : List SseClient) (g : SseClient),
      (jmGet st.wsClientsByRoom evt.room = some (cs1 ++ f :: cs2) → f.sendFails = true →
        f ∈ (jmGet (broadcastEvent st evt).wsClientsByRoom evt.room).getD [] ∧
        ∀ c ∈ cs1 ++ cs2, c.isOpen = true → c.sendFails = false →
          { c with msgs := c.msgs ++ [evt] }
            ∈ (jmGet (broadcastEvent st evt).wsClientsByRoom evt.room).getD []) ∧
      (jmGet st.sseClientsByRoom evt.room = some (ds1 ++ g :: ds2) → g.writeFails = true →
        g ∈ (jmGet (broadcastEvent st evt).sseClientsByRoom evt.room).getD [] ∧
        ∀ d ∈ ds1 ++ ds2, d.writeFails = false →
          { d with msgs := d.msgs ++ [SseMsg.envelope evt] }
            ∈ (jmGet (broadcastEvent st evt).sseClientsByRoom evt.room).getD []) := by
  intro st evt cs1 cs2 f ds1 ds2 g
  constructor
  · intro h hf
    rw [broadcastEvent_ws_some h]
    simp only [Option.getD_some]
    constructor
    · have hdW : deliverWs evt f = f := by
        simp [deliverWs, hf]
      have hmem : f ∈ cs1 ++ f :: cs2 :=
        List.mem_append_right _ (List.mem_cons_self _ _)
      have := List.mem_map_of_mem (deliverWs evt) hmem
      rwa [hdW] at this
    · intro c hc hopen hok
      have hmem : c ∈ cs1 ++ f :: cs2 := by
        rcases List.mem_append.mp hc with h1 | h1
        · exact List.mem_append_left _ h1
        · exact List.mem_append_right _ (List.mem_cons_of_mem _ h1)
      have hdW : deliverWs evt c = { c with msgs := c.msgs ++ [evt] } := by
        simp [deliverWs, hopen, hok]
      have := List.mem_map_of_mem (deliverWs evt) hmem
      rwa [hdW] at this
  · intro h hg
    rw [broadcastEvent_sse_some h]
    simp only [Option.getD_some]
    constructor
    · have hdS : deliverSse evt g = g := by
        simp [deliverSse, hg]
      have hmem : g ∈ ds1 ++ g :: ds2 :=
        List.mem_append_right _ (List.mem_cons_self _ _)
      have := List.mem_map_of_mem (deliverSse evt) hmem
      rwa [hdS] at this
    · intro d hd hok
      have hmem : d ∈ ds1 ++ g :: ds2 := by
        rcases List.mem_append.mp hd with h1 | h1
        · exact List.mem_append_left _ h1
        · exact List.mem_append_right _ (List.mem_cons_of_mem _ h1)
      have hdS : deliverSse evt d = { d with msgs := d.msgs ++ [SseMsg.envelope evt] } := by
        simp [deliverSse, hok]
      have := List.mem_map_of_mem (deliverSse evt) hmem
      rwa [hdS] at this

theorem fanout_isolation_witness :
    wsSub 2 true ∈ (jmGet (broadcastEvent wsIsoState chatEvt).wsClientsByRoom "r").getD [] ∧
    ∀ c ∈ [wsSub 1 false, wsSub 3 false],
      c.isOpen = true → c.sendFails = false →
      { c with msgs := c.msgs ++ [chatEvt] }
        ∈ (jmGet (broadcastEvent wsIsoState chatEvt).wsClientsByRoom "r").getD [] := by
  have h := (fanout_isolation wsIsoState chatEvt
    [wsSub 1 false] [wsSub 3 false] (wsSub 2 true)
    [] [] { sid := "x", writeFails := true, events := none, msgs := [] }).1
    (by decide) (by decide)
  exact ⟨h.1, h.2⟩

/-- Claim C2 fails on the code: broadcastEvent (server.ts lines 26-45) implements
no event-type filter and the server never reads an events selector, so a
subscriber whose declared selector parses — per the spec's own parsing rule — to
the gift-only filter still receives a chat envelope. -/
theorem broadcast_ignores_filter_cex :
    (jmGet (broadcastEvent giftSelState chatEvt).sseClientsByRoom "r"
      = some [{ sid := "c1", writeFails := false, events := some "gift",
                msgs := [SseMsg.envelope chatEvt] }]) ∧
    filterAccepts (parseEventsSelector (some "gift")) "chat" = false := by
  constructor
  · decide
  · decide

/-- Claim C2 amended: fan-out delivers every normalized event to every registered
subscriber of the event's room — every SSE subscriber whose write does not throw
and every OPEN WS subscriber whose send does not throw — regardless of the
event's type and of any events selector the subscriber declared; in particular
delivery happens even when the spec-side parse of the subscriber's selector
rejects the event's type. The code parses no selector and filters nothing. -/
theorem broadcast_delivers_all_types :
    ∀ (st : ServerState) (evt : TikTokEvent) (cs : List SseClient) (c : SseClient)
      (ds : List WsClient) (w : WsClient),
      (jmGet st.sseClientsByRoom evt.room = some cs → c ∈ cs → c.writeFails = false →
        { c with msgs := c.msgs ++ [SseMsg.envelope evt] }
          ∈ (jmGet (broadcastEvent st evt).sseClientsByRoom evt.room).getD []) ∧
      (jmGet st.sseClientsByRoom evt.room = some cs → c ∈ cs → c.writeFails = false →
        filterAccepts (parseEventsSelector c.events) evt.type = false →
        { c with msgs := c.msgs ++ [SseMsg.envelope evt] }
          ∈ (jmGet (broadcastEvent st evt).sseClientsByRoom evt.room).getD []) ∧
      (jmGet st.wsClientsByRoom evt.room = some ds → w ∈ ds → w.isOpen = true →
        w.sendFails = false →
        { w with msgs := w.msgs ++ [evt] }
          ∈ (jmGet (broadcastEvent st evt).wsClientsByRoom evt.room).getD []) := by
  intro st evt cs c ds w
  have hsse : jmGet st.sseClientsByRoom evt.room = some cs → c ∈ cs →
      c.writeFails = false →
      { c with msgs := c.msgs ++ [SseMsg.envelope evt] }
        ∈ (jmGet (broadcastEvent st evt).sseClientsByRoom evt.room).getD [] := by
    intro h hc hok
    rw [broadcastEvent_sse_some h]
    simp only [Option.getD_some]
    have hdS : deliverSse evt c = { c with msgs := c.msgs ++ [SseMsg.envelope evt] } := by
      simp [deliverSse, hok]
    have := List.mem_map_of_mem (deliverSse evt) hc
    rwa [hdS] at this
  refine ⟨hsse, fun h hc hok _ => hsse h hc hok, ?_⟩
  intro h hw hopen hok
  rw [broadcastEvent_ws_some h]
  simp only [Option.getD_some]
  have hdW : deliverWs evt w = { w with msgs := w.msgs ++ [evt] } := by
    simp [deliverWs, hopen, hok]
  have := List.mem_map_of_mem (deliverWs evt) hw
  rwa [hdW] at this

theorem broadcast_delivers_all_types_witness :
    { sseSub "c1" (some "gift") with msgs := [SseMsg.envelope chatEvt] }
      ∈ (jmGet (broadcastEvent giftSelState chatEvt).sseClientsByRoom "r").getD [] := by
  have h := (broadcast_delivers_all_types giftSelState chatEvt
    [sseSub "c1" (some "gift")] (sseSub "c1" (some "gift"))
    [] (wsSub 1 false)).2.1
    (by decide) (by decide) (by decide) (by decide)
  exact h

theorem broadcastEvent_pres (st : ServerState) (e : TikTokEvent) :
    (broadcastEvent st e).connectCalls = st.connectCalls ∧
    (broadcastEvent st e).upstreamConnects = st.upstreamConnects ∧
    (broadcastEvent st e).disconnectCalls = st.disconnectCalls ∧
    (broadcastEvent st e).upstreamDisconnects = st.upstreamDisconnects ∧
    (broadcastEvent st e).connections = st.connections :=
  ⟨rfl, rfl, rfl, rfl, rfl⟩

theorem emitAll_pres (evts : List TikTokEvent) : ∀ st : ServerState,
    (emitAll st evts).connectCalls = st.connectCalls ∧
    (emitAll st evts).upstreamConnects = st.upstreamConnects ∧
    (emitAll st evts).disconnectCalls = st.disconnectCalls ∧
    (emitAll st evts).upstreamDisconnects = st.upstreamDisconnects ∧
    (emitAll st evts).connections = st.connections := by
  induction evts with
  | nil => intro st; exact ⟨rfl, rfl, rfl, rfl, rfl⟩
  | cons e t ih =>
    intro st
    have hstep : emitAll st (e :: t) = emitAll (broadcastEvent st e) t := by
      simp [emitAll]
    rw [hstep]
    have ht := ih (broadcastEvent st e)
    have hb := broadcastEvent_pres st e
    exact ⟨ht.1.trans hb.1, ht.2.1.trans hb.2.1, ht.2.2.1.trans hb.2.2.1,
           ht.2.2.2.1.trans hb.2.2.2.1, ht.2.2.2.2.trans hb.2.2.2.2⟩

theorem sseWriteDirect_pres (st : ServerState) (room : Room) (cid : String) (m : SseMsg) :
    (sseWriteDirect st room cid m).connectCalls = st.connectCalls ∧
    (sseWriteDirect st room cid m).upstreamConnects = st.upstreamConnects ∧
    (sseWriteDirect st room cid m).disconnectCalls = st.disconnectCalls ∧
    (sseWriteDirect st room cid m).connections = st.connections := by
  unfold sseWriteDirect
  split
  · exact ⟨rfl, rfl, rfl, rfl⟩
  · exact ⟨rfl, rfl, rfl, rfl⟩

theorem closeWs_pres (st : ServerState) (room : Room) (w : Nat) :
    (closeWs st room w).connectCalls = st.connectCalls ∧
    (closeWs st room w).upstreamConnects = st.upstreamConnects := by
  unfold closeWs
  split
  · exact ⟨rfl, rfl⟩
  · exact ⟨rfl, rfl⟩

theorem managerDisconnect_pres (st : ServerState) (room : Room) (now : Nat) :
    (managerDisconnect st room now).1.connectCalls = st.connectCalls ∧
    (managerDisconnect st room now).1.upstreamConnects = st.upstreamConnects ∧
    (managerDisconnect st room now).1.disconnectCalls = st.disconnectCalls + 1 := by
  simp only [managerDisconnect]
  split
  · exact ⟨rfl, rfl, rfl⟩
  · exact ⟨rfl, rfl, rfl⟩

theorem wsLeave_connect_pres (st : ServerState) (room : Room) (w : Nat) (now : Nat) :
    (wsLeave st room w now).connectCalls = st.connectCalls ∧
    (wsLeave st room w now).upstreamConnects = st.upstreamConnects := by
  unfold wsLeave
  split
  · exact ⟨rfl, rfl⟩
  · rename_i cs hcs
    by_cases h0 : (wsDelete cs w).length = 0
    · rw [if_pos h0]
      by_cases hE : sseRoomEmpty { st with wsClientsByRoom := jmDelete st.wsClientsByRoom room } room = true
      · rw [if_pos hE]
        have hd := managerDisconnect_pres
          { st with wsClientsByRoom := jmDelete st.wsClientsByRoom room } room now
        have he := emitAll_pres
          (managerDisconnect { st with wsClientsByRoom := jmDelete st.wsClientsByRoom room } room now).2
          (managerDisconnect { st with wsClientsByRoom := jmDelete st.wsClientsByRoom room } room now).1
        exact ⟨he.1.trans hd.1, he.2.1.trans hd.2.1⟩
      · rw [if_neg hE]
        exact ⟨rfl, rfl⟩
    · rw [if_neg h0]
      exact ⟨rfl, rfl⟩

theorem sseRegister_pres (st : ServerState) (room : Room) (c : SseClient) :
    (sseRegister st room c).connectCalls = st.connectCalls ∧
    (sseRegister st room c).upstreamConnects = st.upstreamConnects ∧
    (sseRegister st room c).disconnectCalls = st.disconnectCalls ∧
    (sseRegister st room c).connections = st.connections ∧
    (sseRegister st room c).wsClientsByRoom = st.wsClientsByRoom :=
  ⟨rfl, rfl, rfl, rfl, rfl⟩

theorem wsRegister_pres (st : ServerState) (room : Room) (c : WsClient) :
    (wsRegister st room c).connectCalls = st.connectCalls ∧
    (wsRegister st room c).upstreamConnects = st.upstreamConnects ∧
    (wsRegister st room c).disconnectCalls = st.disconnectCalls ∧
    (wsRegister st room c).connections = st.connections ∧
    (wsRegister st room c).sseClientsByRoom = st.sseClientsByRoom :=
  ⟨rfl, rfl, rfl, rfl, rfl⟩

theorem managerConnect_parts (st : ServerState) (room : Room) (o : COutcome) (now : Nat) :
    (managerConnect st room o now).1.connectCalls = st.connectCalls + 1 ∧
    (st.connections.contains room = true →
      (managerConnect st room o now).1.upstreamConnects = st.upstreamConnects ∧
      (managerConnect st room o now).2.1 = false) ∧
    (st.connections.contains room = false →
      (managerConnect st room o now).1.upstreamConnects = st.upstreamConnects + 1) := by
  cases hc : st.connections.contains room with
  | true =>
    have h1 : managerConnect st room o now
        = ({ st with connectCalls := st.connectCalls + 1 }, false, []) := by
      simp only [managerConnect]
      rw [hc]
      simp
    rw [h1]
    exact ⟨rfl, fun _ => ⟨rfl, rfl⟩, fun hcon => absurd hcon (by decide)⟩
  | false =>
    cases o with
    | ok =>
      have h1 : managerConnect st room COutcome.ok now
          = ({ st with
                connections := room :: st.connections,
                connectCalls := st.connectCalls + 1,
                upstreamConnects := st.upstreamConnects + 1 }, false, []) := by
        simp only [managerConnect]
        rw [hc]
        simp
      rw [h1]
      exact ⟨rfl, fun hcon => absurd hcon (by decide), fun _ => rfl⟩
    | fail e =>
      have h1 : managerConnect st room (COutcome.fail e) now
          = ({ st with
                connectCalls := st.connectCalls + 1,
                upstreamConnects := st.upstreamConnects + 1 }, true,
             [{ type := "error", payload := .errorInfo "Error" (toString e),
                timestamp := now, room := room }]) := by
        simp only [managerConnect]
        rw [hc]
        simp
      rw [h1]
      exact ⟨rfl, fun hcon => absurd hcon (by decide), fun _ => rfl⟩

theorem sseJoin_counts (st : ServerState) (room : Room) (cid : String)
    (es : Option String) (wf : Bool) (o : COutcome) (now : Nat) :
    (sseJoin st room cid es wf o now).connectCalls = st.connectCalls + 1 ∧
    (st.connections.contains room = true →
      (sseJoin st room cid es wf o now).upstreamConnects = st.upstreamConnects) ∧
    (st.connections.contains room = false →
      (sseJoin st room cid es wf o now).upstreamConnects = st.upstreamConnects + 1) := by
  simp only [sseJoin]
  set c : SseClient := { sid := cid, writeFails := wf, events := es, msgs := [] } with hcdef
  set stB := sseWriteDirect (sseRegister st room c) room cid SseMsg.comment with hB
  have hBcc : stB.connectCalls = st.connectCalls := by
    rw [hB, (sseWriteDirect_pres (sseRegister st room c) room cid SseMsg.comment).1,
        (sseRegister_pres st room c).1]
  have hBuc : stB.upstreamConnects = st.upstreamConnects := by
    rw [hB, (sseWriteDirect_pres (sseRegister st room c) room cid SseMsg.comment).2.1,
        (sseRegister_pres st room c).2.1]
  have hBcn : stB.connections = st.connections := by
    rw [hB, (sseWriteDirect_pres (sseRegister st room c) room cid SseMsg.comment).2.2.2,
        (sseRegister_pres st room c).2.2.2.1]
  set out := managerConnect stB room o now with hout
  have hfinc : ∀ s4 : ServerState,
      (if out.2.1 = true then sseWriteDirect s4 room cid SseMsg.directError
       else s4).connectCalls = s4.connectCalls := by
    intro s4
    cases hfl : out.2.1 <;>
      simp [hfl, (sseWriteDirect_pres s4 room cid SseMsg.directError).1]
  have hfinu : ∀ s4 : ServerState,
      (if out.2.1 = true then sseWriteDirect s4 room cid SseMsg.directError
       else s4).upstreamConnects = s4.upstreamConnects := by
    intro s4
    cases hfl : out.2.1 <;>
      simp [hfl, (sseWriteDirect_pres s4 room cid SseMsg.directError).2.1]
  have hout1 : out.1.connectCalls = stB.connectCalls + 1 := by
    rw [hout]
    exact (managerConnect_parts stB room o now).1
  refine ⟨?_, ?_, ?_⟩
  · rw [hfinc (emitAll out.1 out.2.2), (emitAll_pres out.2.2 out.1).1, hout1, hBcc]
  · intro hc
    have hcB : stB.connections.contains room = true := by
      rw [hBcn]
      exact hc
    have hu : out.1.upstreamConnects = stB.upstreamConnects := by
      rw [hout]
      exact ((managerConnect_parts stB room o now).2.1 hcB).1
    rw [hfinu (emitAll out.1 out.2.2), (emitAll_pres out.2.2 out.1).2.1, hu, hBuc]
  · intro hc
    have hcB : stB.connections.contains room = false := by
      rw [hBcn]
      exact hc
    have hu : out.1.upstreamConnects = stB.upstreamConnects + 1 := by
      rw [hout]
      exact (managerConnect_parts stB room o now).2.2 hcB
    rw [hfinu (emitAll out.1 out.2.2), (emitAll_pres out.2.2 out.1).2.1, hu, hBuc]

theorem wsJoin_counts (st : ServerState) (room : Room) (w : Nat)
    (es : Option String) (o : COutcome) (now : Nat) :
    (wsJoin st room w es o now).connectCalls = st.connectCalls + 1 ∧
    (st.connections.contains room = true →
      (wsJoin st room w es o now).upstreamConnects = st.upstreamConnects) ∧
    (st.connections.contains room = false →
      (wsJoin st room w es o now).upstreamConnects = st.upstreamConnects + 1) := by
  simp only [wsJoin]
  set c : WsClient := { wid := w, isOpen := true, sendFails := false,
                        events := es, msgs := [] } with hcdef
  set stB := wsRegister st room c with hB
  have hBcc : stB.connectCalls = st.connectCalls := by
    rw [hB, (wsRegister_pres st room c).1]
  have hBuc : stB.upstreamConnects = st.upstreamConnects := by
    rw [hB, (wsRegister_pres st room c).2.1]
  have hBcn : stB.connections = st.connections := by
    rw [hB, (wsRegister_pres st room c).2.2.2.1]
  set out := managerConnect stB room o now with hout
  have hfinc : ∀ s3 : ServerState,
      (if out.2.1 = true then wsLeave (closeWs s3 room w) room w now
       else s3).connectCalls = s3.connectCalls := by
    intro s3
    cases hfl : out.2.1 with
    | false => rw [if_neg (by simp)]
    | true =>
      rw [if_pos rfl, (wsLeave_connect_pres (closeWs s3 room w) room w now).1,
          (closeWs_pres s3 room w).1]
  have hfinu : ∀ s3 : ServerState,
      (if out.2.1 = true then wsLeave (closeWs s3 room w) room w now
       else s3).upstreamConnects = s3.upstreamConnects := by
    intro s3
    cases hfl : out.2.1 with
    | false => rw [if_neg (by simp)]
    | true =>
      rw [if_pos rfl, (wsLeave_connect_pres (closeWs s3 room w) room w now).2,
          (closeWs_pres s3 room w).2]
  have hout1 : out.1.connectCalls = stB.connectCalls + 1 := by
    rw [hout]
    exact (managerConnect_parts stB room o now).1
  refine ⟨?_, ?_, ?_⟩
  · rw [hfinc (emitAll out.1 out.2.2), (emitAll_pres out.2.2 out.1).1, hout1, hBcc]
  · intro hc
    have hcB : stB.connections.contains room = true := by
      rw [hBcn]
      exact hc
    have hu : out.1.upstreamConnects = stB.upstreamConnects := by
      rw [hout]
      exact ((managerConnect_parts stB room o now).2.1 hcB).1
    rw [hfinu (emitAll out.1 out.2.2), (emitAll_pres out.2.2 out.1).2.1, hu, hBuc]
  · intro hc
    have hcB : stB.connections.contains room = false := by
      rw [hBcn]
      exact hc
    have hu : out.1.upstreamConnects = stB.upstreamConnects + 1 := by
      rw [hout]
      exact (managerConnect_parts stB room o now).2.2 hcB
    rw [hfinu (emitAll out.1 out.2.2), (emitAll_pres out.2.2 out.1).2.1, hu, hBuc]

theorem sseLeave_disconnect (st : ServerState) (room : Room) (cid : String) (now : Nat)
    (cs : List SseClient) (h : jmGet st.sseClientsByRoom room = some cs) :
    (sseLeave st room cid now).disconnectCalls
      = st.disconnectCalls
        + (if (sseDelete cs cid).length = 0 ∧ wsRoomEmpty st room = true
           then 1 else 0) := by
  simp only [sseLeave, h]
  by_cases h0 : (sseDelete cs cid).length = 0
  · rw [if_pos h0]
    rw [show wsRoomEmpty { st with sseClientsByRoom := jmDelete st.sseClientsByRoom room } room
          = wsRoomEmpty st room from rfl]
    cases hE : wsRoomEmpty st room
    · simp only [Bool.false_eq_true, if_false]
      simp [h0, hE]
    · simp only [if_true]
      set st1 := { st with sseClientsByRoom := jmDelete st.sseClientsByRoom room } with h1
      rw [(emitAll_pres (managerDisconnect st1 room now).2 (managerDisconnect st1 room now).1).2.2.1,
          (managerDisconnect_pres st1 room now).2.2]
      have hst1 : st1.disconnectCalls = st.disconnectCalls := by rw [h1]
      rw [hst1]
      simp [h0, hE]
  · rw [if_neg h0]
    have : ({ st with sseClientsByRoom := jmSet st.sseClientsByRoom room (sseDelete cs cid) }
        : ServerState).disconnectCalls = st.disconnectCalls := rfl
    rw [this]
    simp [h0]

theorem wsLeave_disconnect (st : ServerState) (room : Room) (w : Nat) (now : Nat)
    (ds : List WsClient) (h : jmGet st.wsClientsByRoom room = some ds) :
    (wsLeave st room w now).disconnectCalls
      = st.disconnectCalls
        + (if (wsDelete ds w).length = 0 ∧ sseRoomEmpty st room = true
           then 1 else 0) := by
  simp only [wsLeave, h]
  by_cases h0 : (wsDelete ds w).length = 0
  · rw [if_pos h0]
    rw [show sseRoomEmpty { st with wsClientsByRoom := jmDelete st.wsClientsByRoom room } room
          = sseRoomEmpty st room from rfl]
    cases hE : sseRoomEmpty st room
    · simp only [Bool.false_eq_true, if_false]
      simp [h0, hE]
    · simp only [if_true]
      set st1 := { st with wsClientsByRoom := jmDelete st.wsClientsByRoom room } with h1
      rw [(emitAll_pres (managerDisconnect st1 room now).2 (managerDisconnect st1 room now).1).2.2.1,
          (managerDisconnect_pres st1 room now).2.2]
      have hst1 : st1.disconnectCalls = st.disconnectCalls := by rw [h1]
      rw [hst1]
      simp [h0, hE]
  · rw [if_neg h0]
    have : ({ st with wsClientsByRoom := jmSet st.wsClientsByRoom room (wsDelete ds w) }
        : ServerState).disconnectCalls = st.disconnectCalls := rfl
    rw [this]
    simp [h0]

/-- Claim C5: lifecycle coupling — a subscriber joining a not-connected room on
either transport triggers exactly one manager connect call with exactly one
upstream connect invocation; a subscriber joining while the room is connected
triggers one manager connect call but zero additional upstream connects; and a
subscriber leaving triggers the manager's disconnect exactly once if and only
if, after its removal, both the WS and the SSE registry hold zero subscribers
for that room. -/
theorem lifecycle_coupling :
    ∀ (st : ServerState) (room : Room) (cid : String) (w : Nat) (es : Option String)
      (wf : Bool) (o : COutcome) (now : Nat) (cs : List SseClient) (ds : List WsClient),
      (st.connections.contains room = false →
        (sseJoin st room cid es wf o now).connectCalls = st.connectCalls + 1 ∧
        (sseJoin st room cid es wf o now).upstreamConnects = st.upstreamConnects + 1 ∧
        (wsJoin st room w es o now).connectCalls = st.connectCalls + 1 ∧
        (wsJoin st room w es o now).upstreamConnects = st.upstreamConnects + 1) ∧
      (st.connections.contains room = true →
        (sseJoin st room cid es wf o now).connectCalls = st.connectCalls + 1 ∧
        (sseJoin st room cid es wf o now).upstreamConnects = st.upstreamConnects ∧
        (wsJoin st room w es o now).connectCalls = st.connectCalls + 1 ∧
        (wsJoin st room w es o now).upstreamConnects = st.upstreamConnects) ∧
      (jmGet st.sseClientsByRoom room = some cs →
        (sseLeave st room cid now).disconnectCalls
          = st.disconnectCalls
            + (if (sseDelete cs cid).length = 0 ∧ wsRoomEmpty st room = true
               then 1 else 0)) ∧
      (jmGet st.wsClientsByRoom room = some ds →
        (wsLeave st room w now).disconnectCalls
          = st.disconnectCalls
            + (if (wsDelete ds w).length = 0 ∧ sseRoomEmpty st room = true
               then 1 else 0)) := by
  intro st room cid w es wf o now cs ds
  refine ⟨?_, ?_, ?_, ?_⟩
  · intro hc
    exact ⟨(sseJoin_counts st room cid es wf o now).1,
           (sseJoin_counts st room cid es wf o now).2.2 hc,
           (wsJoin_counts st room w es o now).1,
           (wsJoin_counts st room w es o now).2.2 hc⟩
  · intro hc
    exact ⟨(sseJoin_counts st room cid es wf o now).1,
           (sseJoin_counts st room cid es wf o now).2.1 hc,
           (wsJoin_counts st room w es o now).1,
           (wsJoin_counts st room w es o now).2.1 hc⟩
  · intro h
    exact sseLeave_disconnect st room cid now cs h
  · intro h
    exact wsLeave_disconnect st room w now ds h

theorem lifecycle_coupling_witness :
    ((sseJoin initialServer "r" "c1" none false COutcome.ok 9).connectCalls
        = initialServer.connectCalls + 1 ∧
      (sseJoin initialServer "r" "c1" none false COutcome.ok 9).upstreamConnects
        = initialServer.upstreamConnects + 1 ∧
      (wsJoin initialServer "r" 1 none COutcome.ok 9).connectCalls
        = initialServer.connectCalls + 1 ∧
      (wsJoin initialServer "r" 1 none COutcome.ok 9).upstreamConnects
        = initialServer.upstreamConnects + 1) ∧
    (sseJoin connectedState "r" "c2" none false COutcome.ok 9).upstreamConnects
      = connectedState.upstreamConnects ∧
    (sseLeave oneSseState "r" "c1" 9).disconnectCalls
      = oneSseState.disconnectCalls
        + (if (sseDelete [sseSub "c1" none] "c1").length = 0 ∧
              wsRoomEmpty oneSseState "r" = true then 1 else 0) ∧
    (wsLeave oneWsState "r" 1 9).disconnectCalls
      = oneWsState.disconnectCalls
        + (if (wsDelete [wsSub 1 false] 1).length = 0 ∧
              sseRoomEmpty oneWsState "r" = true then 1 else 0) := by
  refine ⟨?_, ?_, ?_, ?_⟩
  · exact (lifecycle_coupling initialServer "r" "c1" 1 none false COutcome.ok 9 [] []).1
      (by decide)
  · exact ((lifecycle_coupling connectedState "r" "c2" 1 none false COutcome.ok 9 [] []).2.1
      (by decide)).2.1
  · exact (lifecycle_coupling oneSseState "r" "c1" 1 none false COutcome.ok 9
      [sseSub "c1" none] []).2.2.1 (by decide)
  · exact (lifecycle_coupling oneWsState "r" "cx" 1 none false COutcome.ok 9
      [] [wsSub 1 false]).2.2.2 (by decide)

/-- Claim C3 fails on the code: an SSE subscriber that joins a room whose
upstream connect attempt fails receives two error-typed messages, not exactly
one — the manager's error envelope is broadcast to the whole room (server.ts
lines 47-49 route it through broadcastEvent, and the subscriber is registered
before connect is attempted), and the handler's catch then writes a second,
direct error-framed message (server.ts lines 109-114). -/
theorem failed_connect_error_cex :
    (jmGet (sseJoin initialServer "r" "c1" none false (.fail 7) 9).sseClientsByRoom "r"
      = some [{ sid := "c1", writeFails := false, events := none,
                msgs := [SseMsg.comment, SseMsg.envelope (errEnvelope 7 9 "r"),
                         SseMsg.directError] }]) ∧
    (([SseMsg.comment, SseMsg.envelope (errEnvelope 7 9 "r"),
       SseMsg.directError].filter SseMsg.isError).length = 2) := by
  constructor
  · decide
  · decide

/-- Claim C3 amended: when a subscriber joins a room (starting from the empty
server state) and the upstream connect attempt fails, an SSE subscriber
receives exactly two error-typed messages — the broadcast error envelope
followed by the direct connect-failed write — and it stays registered, still
receiving any later envelope broadcast for the room; a WS subscriber receives
exactly one error-typed envelope (via the broadcast, not a direct send), is
then closed and removed from the registry, and receives nothing further. -/
theorem failed_connect_error_surface :
    ∀ (room cid ty : String) (e now w tn : Nat) (pl : Payload),
      jmGet (sseJoin initialServer room cid none false (.fail e) now).sseClientsByRoom room
        = some [{ sid := cid, writeFails := false, events := none,
                  msgs := [SseMsg.comment, SseMsg.envelope (errEnvelope e now room),
                           SseMsg.directError] }] ∧
      (([SseMsg.comment, SseMsg.envelope (errEnvelope e now room),
         SseMsg.directError].filter SseMsg.isError).length = 2) ∧
      jmGet (broadcastEvent (sseJoin initialServer room cid none false (.fail e) now)
          { type := ty, payload := pl, timestamp := tn, room := room }).sseClientsByRoom room
        = some [{ sid := cid, writeFails := false, events := none,
                  msgs := [SseMsg.comment, SseMsg.envelope (errEnvelope e now room),
                           SseMsg.directError,
                           SseMsg.envelope { type := ty, payload := pl, timestamp := tn,
                                             room := room }] }] ∧
      jmGet (wsJoin initialServer room w none (.fail e) now).wsClientsByRoom room = none ∧
      (wsJoin initialServer room w none (.fail e) now).wsLog
        = [(w, errEnvelope e now room)] ∧
      (broadcastEvent (wsJoin initialServer room w none (.fail e) now)
          { type := ty, payload := pl, timestamp := tn, room := room }).wsLog
        = (wsJoin initialServer room w none (.fail e) now).wsLog := by
  intro room cid ty e now w tn pl
  refine ⟨?_, ?_, ?_, ?_, ?_, ?_⟩
  · simp [sseJoin, sseRegister, sseWriteDirect, sseSet, managerConnect, emitAll,
          broadcastEvent, deliverSse, jmGet, jmSet, initialServer, errEnvelope]
  · simp [SseMsg.isError, errEnvelope]
  · simp [sseJoin, sseRegister, sseWriteDirect, sseSet, managerConnect, emitAll,
          broadcastEvent, deliverSse, jmGet, jmSet, initialServer, errEnvelope]
  · simp [wsJoin, wsRegister, wsLeave, closeWs, managerConnect, managerDisconnect, emitAll,
          broadcastEvent, deliverWs, wsDelete, sseRoomEmpty, jmGet, jmSet, jmDelete,
          initialServer, errEnvelope]
  · simp [wsJoin, wsRegister, wsLeave, closeWs, managerConnect, managerDisconnect, emitAll,
          broadcastEvent, deliverWs, wsDelete, sseRoomEmpty, jmGet, jmSet, jmDelete,
          initialServer, errEnvelope]
  · simp [wsJoin, wsRegister, wsLeave, closeWs, managerConnect, managerDisconnect, emitAll,
          broadcastEvent, deliverWs, wsDelete, sseRoomEmpty, jmGet, jmSet, jmDelete,
          initialServer, errEnvelope]

end TTSRelay
